import Mathlib

/-!
Verification of the hashids codec (`src/lib.rs` of hashids_rust).

Shallow embedding conventions:
* All strings of the source are ASCII (the builder rejects non-ASCII salts and
  alphabets, and every internal string is built from ASCII pools), so a Rust
  `String` is modelled as a `List Nat` of its byte values; `char as usize` and
  byte indexing coincide on this range.
* A Rust panic (out-of-bounds slice or index, modulo by zero, `unwrap()` of an
  `Err`, and the `usize` subtraction overflow that leads to an out-of-bounds
  slice in `encode_vec`) is modelled as `none` in an `Option` result.
  A Rust `Err(e)` return is modelled as `Except.error e`.
* `usize` arithmetic that can wrap (only the `position * alpha_len.pow(...)`
  accumulation in `unhash` can exceed 64 bits on reachable inputs) is taken
  modulo `2 ^ 64`, the release-build two's-complement behaviour.
* The two `f32` computations of the builder are modelled exactly on their
  reachable range: for an integer quotient `q`, `(q as f32) > 3.5` iff `4 ≤ q`;
  for `L < 2 ^ 23` (well beyond any real alphabet) `((L as f32) / 3.5) as usize`
  is `2 * L / 7` and `(L as f32 / 12.0).ceil() as usize` is `(L + 11) / 12`.
* The `Regex::new(&format!("[{}]", pool))` character classes of `decode` are
  modelled as literal byte-set replacement, which is exact whenever the pool
  contains no regex metacharacters (all pools used in the theorems below are
  alphanumeric or space-free literals).  `split_whitespace` splits on the ASCII
  whitespace bytes 9–13 and 32.
* Reading the salt from the environment is external I/O (out of the spec's
  scope); the builder is modelled with an explicitly supplied salt, i.e. the
  `with_salt` path of `HashidBuilder::ok`.
-/

namespace Hashids

/-- Error enum of the crate (lib.rs lines 27–41). -/
inductive Error where
  | MissingSalt
  | NonAsciiSalt
  | InvalidAlphabetLength
  | NonAsciiAlphabet
  | InvalidInputId
  | NonHexString
  | EmptyHash
  | InvalidHash
deriving DecidableEq, Repr

/-- The codec configuration produced by `HashidBuilder::ok` (lib.rs 254–260). -/
structure HashidCodec where
  salt : List Nat
  alphabet : List Nat
  separators : List Nat
  min_hash_length : Nat
  guards : List Nat
deriving DecidableEq, Repr

/-- DEFAULT_ALPHABET = "abcdefghijklmnopqrstuvwxyzABCDEFGHIJKLMNOPQRSTUVWXYZ1234567890" (lib.rs 18). -/
def DEFAULT_ALPHABET : List Nat :=
  [97, 98, 99, 100, 101, 102, 103, 104, 105, 106, 107, 108, 109, 110, 111, 112,
   113, 114, 115, 116, 117, 118, 119, 120, 121, 122, 65, 66, 67, 68, 69, 70,
   71, 72, 73, 74, 75, 76, 77, 78, 79, 80, 81, 82, 83, 84, 85, 86, 87, 88, 89,
   90, 49, 50, 51, 52, 53, 54, 55, 56, 57, 48]

/-- DEFAULT_SEPARATORS = "cfhistuCFHISTU" (lib.rs 20). -/
def DEFAULT_SEPARATORS : List Nat :=
  [99, 102, 104, 105, 115, 116, 117, 67, 70, 72, 73, 83, 84, 85]

/-- DEFAULT_MIN_LENGTH (lib.rs 19). -/
def DEFAULT_MIN_LENGTH : Nat := 4

/-- MIN_ALPHABET_LENGTH (lib.rs 23). -/
def MIN_ALPHABET_LENGTH : Nat := 16

/-- usize modulus: the crate targets 64-bit usize. -/
def W : Nat := 2 ^ 64

/-- Vec::swap(i, j) (used by hashids_shuffle, lib.rs 556).  Both indices are in
bounds at every call site (j < i < length); the out-of-range branch returns the
list unchanged and is never reached. -/
def swapList (l : List Nat) (i j : Nat) : List Nat :=
  if i < l.length ∧ j < l.length then
    (l.set i (l.getD j 0)).set j (l.getD i 0)
  else l

/-- The while loop of hashids_shuffle (lib.rs 550–560): walk `i` from
`length - 1` down to 1 with salt cursor `v` and accumulator `p`.  The first
argument of the recursion is the current Rust `i`. -/
def shuffleGo (salt : List Nat) : Nat → Nat → Nat → List Nat → List Nat
  | 0, _, _, cur => cur
  | i + 1, v, p, cur =>
    let v2 := v % salt.length
    let t := salt.getD v2 0
    let p2 := p + t
    let j := (t + v2 + p2) % (i + 1)
    shuffleGo salt i (v2 + 1) p2 (swapList cur (i + 1) j)

/-- hashids_shuffle (lib.rs 533–565): the salt-driven permutation.  Signature
`(alphabet, salt) -> Result<String, Error>`. -/
def hashids_shuffle (alphabet : List Nat) (salt : List Nat) : Except Error (List Nat) :=
  if salt.length = 0 then .error .MissingSalt
  else if alphabet.length = 0 then .error .InvalidAlphabetLength
  else .ok (shuffleGo salt (alphabet.length - 1) 0 0 alphabet)

/-- get_unique_alphabet (lib.rs 518–530): deduplicate keeping first occurrences. -/
def get_unique_alphabet (alphabet : List Nat) : List Nat :=
  alphabet.foldl (fun acc c => if acc.contains c then acc else acc ++ [c]) []

/-- get_non_duplicated_string (lib.rs 495–515): keep the separators that occur
in the alphabet, and the alphabet characters that are not separators. -/
def get_non_duplicated_string (separators alphabet : List Nat) : List Nat × List Nat :=
  (separators.filter (fun c => alphabet.contains c),
   alphabet.filter (fun c => !separators.contains c))

/-- Separator resizing step of `HashidBuilder::ok` (lib.rs 209–223).
The Rust condition is
`shuffled_separators_len <= 0 || ((alphabet_len / shuffled_separators_len) as f32) > 3.5`;
the division is integer division, and for an integer quotient `q` the test
`(q as f32) > 3.5` holds iff `4 ≤ q`.  The target
`((alphabet_len as f32) / 3.5) as usize` is `2 * alphabet_len / 7` (exact for
every reachable length), bumped to 2 only when it is exactly 1.  The slice
`&t_alphabet[..diff]` panics when `diff` exceeds the alphabet length, modelled
by `none`.  `sepsTarget` is the `seps_len` computed at lib.rs 210–213. -/
def sepsTarget (L : Nat) : Nat :=
  if 2 * L / 7 = 1 then 2 else 2 * L / 7

/-- Separator resizing step, continued: the branch bodies of lib.rs 215–222. -/
def resizeSeps (seps alph : List Nat) : Option (List Nat × List Nat) :=
  if seps.length = 0 ∨ 4 ≤ alph.length / seps.length then
    if seps.length < sepsTarget alph.length then
      if sepsTarget alph.length - seps.length ≤ alph.length then
        some (seps ++ alph.take (sepsTarget alph.length - seps.length),
              alph.drop (sepsTarget alph.length - seps.length))
      else none
    else some (seps.take (sepsTarget alph.length), alph)
  else some (seps, alph)

/-- Guard extraction step of `HashidBuilder::ok` (lib.rs 227–237).  `L` is the
`alphabet_len` captured at lib.rs 205, before the resize step.  The guard count
`(alphabet_len as f32 / 12.0).ceil() as usize` is `(L + 11) / 12`.  Returns
(guards, separators, alphabet); an out-of-bounds slice is `none`. -/
def extractGuards (L : Nat) (seps alph : List Nat) : Option (List Nat × List Nat × List Nat) :=
  let g := (L + 11) / 12
  if L < 3 then
    if g ≤ seps.length then some (seps.take g, seps.drop g, alph) else none
  else
    if g ≤ alph.length then some (alph.take g, seps, alph.drop g) else none

/-- Alphabet selection and validation of `HashidBuilder::ok` (lib.rs 180–191):
default alphabet, or the deduplicated custom alphabet after the ASCII and
minimum-length checks. -/
def alphabetChoice (customAlphabet : Option (List Nat)) : Except Error (List Nat) :=
  match customAlphabet with
  | none => .ok DEFAULT_ALPHABET
  | some custom =>
    if custom.all (fun b => b < 128) then
      let unique := get_unique_alphabet custom
      if unique.length < MIN_ALPHABET_LENGTH then .error .InvalidAlphabetLength
      else .ok unique
    else .error .NonAsciiAlphabet

/-- HashidBuilder::ok (lib.rs 177–247) with an explicitly supplied salt (the
`with_salt` path; the environment-variable fallback is external I/O).  `none`
models a panic, `some (Except.error e)` a returned error. -/
def builderOk (salt : List Nat) (customAlphabet : Option (List Nat))
    (minLength : Option Nat) : Option (Except Error HashidCodec) :=
  match alphabetChoice customAlphabet with
  | .error e => some (.error e)
  | .ok alphabet =>
    if salt.all (fun b => b < 128) then
      let min_hash_length := minLength.getD DEFAULT_MIN_LENGTH
      let parts := get_non_duplicated_string DEFAULT_SEPARATORS alphabet
      match hashids_shuffle parts.1 salt with
      | .error e => some (.error e)
      | .ok sseps =>
        match resizeSeps sseps parts.2 with
        | none => none
        | some (seps2, alph2) =>
          match hashids_shuffle alph2 salt with
          | .error e => some (.error e)
          | .ok salph =>
            match extractGuards parts.2.length seps2 salph with
              | none => none
              | some (guards, seps3, alph3) =>
                some (.ok { salt := salt, alphabet := alph3, separators := seps3,
                            min_hash_length := min_hash_length, guards := guards })
    else some (.error .NonAsciiSalt)

/-- The integer-to-digits loop `hash` (lib.rs 583–597).  The recursion is
fuelled by the input value: for an alphabet of length at least 2 the quotient
strictly decreases, so fuel `input + 1` always suffices (every codec alphabet
has at least 2 characters; the fuel-exhausted branch is unreachable there). -/
def hashGo (alphabet : List Nat) : Nat → Nat → List Nat → List Nat
  | 0, _, acc => acc
  | fuel + 1, input, acc =>
    let len := alphabet.length
    let idx := input % len
    let acc2 := (alphabet.drop idx).take 1 ++ acc
    let q := input / len
    if q = 0 then acc2 else hashGo alphabet fuel q acc2

/-- hash (lib.rs 583–597): positional digits of `input` over `alphabet`, most
significant first; `0` yields the first character. -/
def hash (input : Nat) (alphabet : List Nat) : List Nat :=
  hashGo alphabet (input + 1) input []

/-- unhash (lib.rs 567–581): invert `hash`; a character absent from the
alphabet contributes position 0 (`unwrap_or(0)`).  The accumulation
`number += position * alpha_len.pow(pow_size)` is usize arithmetic and wraps
modulo `2 ^ 64` (release-build behaviour). -/
def unhash (input alphabet : List Nat) : Nat :=
  let aLen := alphabet.length
  let L := input.length - 1
  input.enum.foldl
    (fun acc p =>
      let pos := ((alphabet.findIdx? (fun x => x == p.2)).getD 0)
      (acc + pos * (aLen ^ (L - p.1) % W) % W) % W)
    0

/-- The `number_hash_int` accumulation of encode_vec (lib.rs 329–337):
`number % count` summed with `count` starting at 100. -/
def numberHashInt (numbers : List Nat) : Nat :=
  (numbers.foldl (fun s n => (s.1 + n % s.2, s.2 + 1)) ((0 : Nat), (100 : Nat))).1

/-- Per-number loop of encode_vec (lib.rs 347–360): re-shuffle the working
alphabet with the seed `ret ++ salt ++ alphabet` truncated to the alphabet
length, append the digits of the number, and between numbers append the
separator at `(n % (first_digit_byte + i)) % separators.len()`.  The state is
(numbers left, i, working alphabet, output); `none` models the panics
(`unwrap()` of a shuffle error, modulo by zero). -/
def encodeLoop (salt ret separators : List Nat) (last_len : Nat) :
    List Nat → Nat → List Nat → List Nat → Option (List Nat × List Nat)
  | [], _, t_alph, ret_str => some (t_alph, ret_str)
  | n :: rest, i, t_alph, ret_str =>
    let buffer := ret ++ salt ++ t_alph
    match hashids_shuffle t_alph (buffer.take t_alph.length) with
    | .error _ => none
    | .ok t2 =>
      let last := hash n t2
      let ret2 := ret_str ++ last
      if i + 1 < last_len then
        match last.head? with
        | none => none
        | some b =>
          if b + i = 0 then none
          else if separators.length = 0 then none
          else
            let v := n % (b + i) % separators.length
            encodeLoop salt ret separators last_len rest (i + 1) t2
              (ret2 ++ [separators.getD v 0])
      else encodeLoop salt ret separators last_len rest (i + 1) t2 ret2

/-- encode_vec (lib.rs 328–392).  After the per-number loop: if the output is
shorter than min_hash_length, prepend a guard chosen by
`(number_hash_int + byte 0) % guards.len()`, and if still short append a guard
chosen with byte 2 (`ret_str.clone().into_bytes()[2]` panics when the string
has fewer than 3 bytes).  The final while loop wraps the output between the
halves of the re-shuffled working alphabet and center-crops to exactly
min_hash_length; since each pass therefore ends with the length equal to
min_hash_length, the Rust loop body runs at most once.  When the wrapped
string is still shorter than min_hash_length, the usize subtraction
`ret_str.len() - min_hash_length` wraps and the following slice is out of
bounds: a panic, modelled by `none`. -/
def encode_vec (c : HashidCodec) (numbers : List Nat) : Option (List Nat) :=
  let nh := numberHashInt numbers
  if c.alphabet.length = 0 then none
  else
    let idx := nh % c.alphabet.length
    let ret := (c.alphabet.drop idx).take 1
    match encodeLoop c.salt ret c.separators numbers.length numbers 0 c.alphabet ret with
    | none => none
    | some (t_alph, ret_str) =>
      let step4 : Option (List Nat) :=
        if ret_str.length < c.min_hash_length then
          if c.guards.length = 0 then none
          else
            match ret_str.head? with
            | none => none
            | some b0 =>
              let gi := (nh + b0) % c.guards.length
              let r2 := (c.guards.drop gi).take 1 ++ ret_str
              if r2.length < c.min_hash_length then
                match r2[2]? with
                | none => none
                | some b2 =>
                  let gi2 := (nh + b2) % c.guards.length
                  some (r2 ++ (c.guards.drop gi2).take 1)
              else some r2
        else some ret_str
      match step4 with
      | none => none
      | some r =>
        let half_len := t_alph.length / 2
        if r.length < c.min_hash_length then
          match hashids_shuffle t_alph t_alph with
          | .error _ => none
          | .ok t2 =>
            let wrapped := t2.drop half_len ++ r ++ t2.take half_len
            if wrapped.length < c.min_hash_length then none
            else
              let excess := wrapped.length - c.min_hash_length
              if 0 < excess then some ((wrapped.drop (excess / 2)).take c.min_hash_length)
              else some wrapped
        else some r

/-- True for the bytes `split_whitespace` splits on (ASCII whitespace). -/
def isWsByte (b : Nat) : Bool := b == 32 || (9 ≤ b && b ≤ 13)

/-- split_whitespace on a byte list: split on ASCII whitespace, dropping empty
segments. -/
def splitWsGo : List Nat → List Nat → List (List Nat)
  | [], acc => if acc = [] then [] else [acc.reverse]
  | b :: rest, acc =>
    if isWsByte b then
      if acc = [] then splitWsGo rest [] else acc.reverse :: splitWsGo rest []
    else splitWsGo rest (b :: acc)

/-- split_whitespace (used by decode, lib.rs 402 and 418). -/
def splitWs (l : List Nat) : List (List Nat) := splitWsGo l []

/-- Per-segment loop of decode (lib.rs 423–429): re-shuffle the working
alphabet with the seed `lottery ++ salt ++ alphabet` truncated to the alphabet
length, then recover each number with `unhash`.  A shuffle error propagates
(the `?` at lib.rs 427). -/
def decodeNumbers (salt : List Nat) (lottery : Nat) :
    List (List Nat) → List Nat → Except Error (List Nat)
  | [], _ => .ok []
  | s :: rest, alphabet =>
    let buffer := lottery :: (salt ++ alphabet)
    match hashids_shuffle alphabet (buffer.take alphabet.length) with
    | .error e => .error e
    | .ok a2 =>
      match decodeNumbers salt lottery rest a2 with
      | .error e => .error e
      | .ok ns => .ok (unhash s a2 :: ns)

/-- decode (lib.rs 394–437).  Guard characters are replaced by spaces and the
result split on whitespace; with 2 or 3 segments the second is used, otherwise
the first (`split1[i]` panics when there is no segment, modelled by `none`).
The first byte of the segment is the lottery character, the rest is split at
separator characters, each group is unhashed, and finally the recovered
sequence is re-encoded and compared byte-for-byte with the input. -/
def decode (c : HashidCodec) (hashInput : List Nat) : Option (Except Error (List Nat)) :=
  if hashInput = [] then some (.error .EmptyHash)
  else
    let t_hash := hashInput.map (fun b => if c.guards.contains b then 32 else b)
    let split1 := splitWs t_hash
    let i := if split1.length = 3 ∨ split1.length = 2 then 1 else 0
    match split1[i]? with
    | none => none
    | some seg =>
      match seg with
      | [] => none
      | lottery :: restSeg =>
        let rest2 := restSeg.map (fun b => if c.separators.contains b then 32 else b)
        let split2 := splitWs rest2
        match decodeNumbers c.salt lottery split2 c.alphabet with
        | .error e => some (.error e)
        | .ok ret =>
          match encode_vec c ret with
          | none => none
          | some chk => if chk = hashInput then some (.ok ret) else some (.error .InvalidHash)

/-- `<u32 as PositiveInteger>::to_usize` (lib.rs 452–454): always accepted
(`u32` values are below `2 ^ 32`). -/
def u32_to_usize (n : Nat) : Except Error Nat := .ok n

/-- `<u64 as PositiveInteger>::to_usize` (lib.rs 456–462): rejected iff the
value is at least `i64::MAX = 2 ^ 63 - 1`. -/
def u64_to_usize (n : Nat) : Except Error Nat :=
  if 9223372036854775807 ≤ n then .error .InvalidInputId else .ok n

/-- `<i32 as PositiveInteger>::to_usize` (lib.rs 464–472): rejected iff
`self <= 0` — note that zero is rejected. -/
def i32_to_usize (n : Int) : Except Error Nat :=
  if n ≤ 0 then .error .InvalidInputId else .ok n.toNat

/-- `<i64 as PositiveInteger>::to_usize` (lib.rs 474–486): rejected iff
`self <= 0`; the upper-bound check is commented out in the source. -/
def i64_to_usize (n : Int) : Except Error Nat :=
  if n ≤ 0 then .error .InvalidInputId else .ok n.toNat

/-- HashidCodec::encode for an i64 input (lib.rs 317–326): validate via
to_usize, then encode the one-element sequence. -/
def encode_i64 (c : HashidCodec) (n : Int) : Option (Except Error (List Nat)) :=
  match i64_to_usize n with
  | .error e => some (.error e)
  | .ok u =>
    match encode_vec c [u] with
    | none => none
    | some s => some (.ok s)

/-- Build a codec from the given options and encode a sequence with it
(`none` when the build fails or a panic occurs). -/
def encodeWith (salt : List Nat) (customAlphabet : Option (List Nat))
    (minLength : Option Nat) (numbers : List Nat) : Option (List Nat) :=
  match builderOk salt customAlphabet minLength with
  | some (.ok c) => encode_vec c numbers
  | _ => none

/-- Build a codec from the given options and decode a string with it
(`none` when the build fails or a panic occurs). -/
def decodeWith (salt : List Nat) (customAlphabet : Option (List Nat))
    (minLength : Option Nat) (hashInput : List Nat) : Option (Except Error (List Nat)) :=
  match builderOk salt customAlphabet minLength with
  | some (.ok c) => decode c hashInput
  | _ => none

/-- Separator pool of a derivation result (empty when the derivation failed). -/
def configSeparators : Option (Except Error HashidCodec) → List Nat
  | some (.ok c) => c.separators
  | _ => []

/-- Guard pool of a derivation result (empty when the derivation failed). -/
def configGuards : Option (Except Error HashidCodec) → List Nat
  | some (.ok c) => c.guards
  | _ => []

/-- Alphabet pool of a derivation result (empty when the derivation failed). -/
def configAlphabet : Option (Except Error HashidCodec) → List Nat
  | some (.ok c) => c.alphabet
  | _ => []

/-- Modelled from the spec, for comparison with the code (claim C7): the
separator-resize step as the spec words it — resize exactly when the
separators are empty or the real-valued ratio
`alphabet_length / separators_length` exceeds 3.5 (that is,
`2 * alphabet_length > 7 * separators_length`), with target
`floor(alphabet_length / 3.5)` floored to a minimum of 2. -/
def resizeSepsClaimC7 (seps alph : List Nat) : List Nat × List Nat :=
  if seps.length = 0 ∨ 7 * seps.length < 2 * alph.length then
    let t := max 2 (2 * alph.length / 7)
    if seps.length < t then
      (seps ++ alph.take (t - seps.length), alph.drop (t - seps.length))
    else (seps.take t, alph)
  else (seps, alph)

/-- Modelled from the spec (claim C7): the derivation with the spec's version
of the separator-resize step; all other steps as in the code. -/
def builderOkClaimC7 (salt : List Nat) (customAlphabet : Option (List Nat))
    (minLength : Option Nat) : Option (Except Error HashidCodec) :=
  match alphabetChoice customAlphabet with
  | .error e => some (.error e)
  | .ok alphabet =>
    if salt.all (fun b => b < 128) then
      let min_hash_length := minLength.getD DEFAULT_MIN_LENGTH
      let parts := get_non_duplicated_string DEFAULT_SEPARATORS alphabet
      match hashids_shuffle parts.1 salt with
      | .error e => some (.error e)
      | .ok sseps =>
        let resized := resizeSepsClaimC7 sseps parts.2
        match hashids_shuffle resized.2 salt with
        | .error e => some (.error e)
        | .ok salph =>
          match extractGuards parts.2.length resized.1 salph with
              | none => none
              | some (guards, seps3, alph3) =>
                some (.ok { salt := salt, alphabet := alph3, separators := seps3,
                            min_hash_length := min_hash_length, guards := guards })
    else some (.error .NonAsciiSalt)

/-- Modelled from the spec (claim C8): the derivation with the guard count and
the guard-source test computed from the alphabet length AFTER the
separator-resize step (the claim's primary reading); all other steps as in the
code, which uses the length captured before the resize. -/
def builderOkClaimC8 (salt : List Nat) (customAlphabet : Option (List Nat))
    (minLength : Option Nat) : Option (Except Error HashidCodec) :=
  match alphabetChoice customAlphabet with
  | .error e => some (.error e)
  | .ok alphabet =>
    if salt.all (fun b => b < 128) then
      let min_hash_length := minLength.getD DEFAULT_MIN_LENGTH
      let parts := get_non_duplicated_string DEFAULT_SEPARATORS alphabet
      match hashids_shuffle parts.1 salt with
      | .error e => some (.error e)
      | .ok sseps =>
        match resizeSeps sseps parts.2 with
        | none => none
        | some (seps2, alph2) =>
          match hashids_shuffle alph2 salt with
          | .error e => some (.error e)
          | .ok salph =>
            match extractGuards alph2.length seps2 salph with
              | none => none
              | some (guards, seps3, alph3) =>
                some (.ok { salt := salt, alphabet := alph3, separators := seps3,
                            min_hash_length := min_hash_length, guards := guards })
    else some (.error .NonAsciiSalt)

/-! Concrete inputs used by the claim theorems. -/

/-- The salt "this is my salt" used throughout the crate's tests. -/
def saltTIMS : List Nat := [116, 104, 105, 115, 32, 105, 115, 32, 109, 121, 32, 115, 97, 108, 116]

/-- A 47-byte ASCII salt (47 times the letter a). -/
def saltLongA : List Nat := List.replicate 47 97

/-- A 48-byte ASCII salt that extends `saltLongA` by the letter b: a different
salt whose first 47 bytes agree with `saltLongA`. -/
def saltLongB : List Nat := List.replicate 47 97 ++ [98]

/-- The custom alphabet "0123456789ABCDEF " (unique ASCII characters, the last
one being a space, byte 32). -/
def alphaSpace : List Nat := [48, 49, 50, 51, 52, 53, 54, 55, 56, 57, 65, 66, 67, 68, 69, 70, 32]

/-- A 67-character unique ASCII alphabet: the 14 default separator characters,
the 48 remaining default alphanumerics, and 5 punctuation characters.  Its
partition yields 14 separators and a 53-character alphabet, so the real ratio
53 / 14 exceeds 3.5 while the integer quotient is 3. -/
def alpha67 : List Nat :=
  [99, 102, 104, 105, 115, 116, 117, 67, 70, 72, 73, 83, 84, 85, 97, 98, 100,
   101, 103, 106, 107, 108, 109, 110, 111, 112, 113, 114, 118, 119, 120, 121,
   122, 65, 66, 68, 69, 71, 74, 75, 76, 77, 78, 79, 80, 81, 82, 86, 87, 88,
   89, 90, 49, 50, 51, 52, 53, 54, 55, 56, 57, 48, 33, 64, 35, 36, 37]

/-- A 78-character unique ASCII alphabet: the 14 default separator characters,
the 48 remaining default alphanumerics, and 16 punctuation characters.  Its
partition yields 14 separators and a 64-character alphabet; the resize step
then moves 4 characters, leaving 60. -/
def alpha78 : List Nat :=
  [99, 102, 104, 105, 115, 116, 117, 67, 70, 72, 73, 83, 84, 85, 97, 98, 100,
   101, 103, 106, 107, 108, 109, 110, 111, 112, 113, 114, 118, 119, 120, 121,
   122, 65, 66, 68, 69, 71, 74, 75, 76, 77, 78, 79, 80, 81, 82, 86, 87, 88,
   89, 90, 49, 50, 51, 52, 53, 54, 55, 56, 57, 48, 33, 64, 35, 36, 37, 94,
   38, 42, 40, 41, 95, 43, 45, 61, 46, 44]

/-! Permutation properties of the shuffle. -/

/-- Setting index `k` to `x` while lifting the old element to the front is a
permutation of pushing `x` on the front. -/
theorem getD_cons_set_perm (x : Nat) :
    ∀ (t : List Nat) (k : Nat), k < t.length →
      (t.getD k 0 :: t.set k x).Perm (x :: t) := by
  intro t
  induction t with
  | nil => intro k hk; simp at hk
  | cons y s ih =>
    intro k hk
    cases k with
    | zero => simpa using List.Perm.swap x y s
    | succ k =>
      have hk2 : k < s.length := by simpa using hk
      have h1 := ih k hk2
      show ((y :: s).getD (k + 1) 0 :: (y :: s).set (k + 1) x).Perm (x :: y :: s)
      rw [List.getD_cons_succ]
      have e1 : (y :: s).set (k + 1) x = y :: s.set k x := rfl
      rw [e1]
      exact ((List.Perm.swap y (s.getD k 0) (s.set k x)).trans (h1.cons y)).trans
        (List.Perm.swap x y s)

/-- Swapping two positions (written as two `set`s) permutes the list. -/
theorem set_set_perm :
    ∀ (l : List Nat) (i j : Nat), j < i → i < l.length →
      ((l.set i (l.getD j 0)).set j (l.getD i 0)).Perm l := by
  intro l
  induction l with
  | nil => intro i j _ hi; simp at hi
  | cons x t ih =>
    intro i j hj hi
    cases i with
    | zero => omega
    | succ i =>
      cases j with
      | zero =>
        have hi2 : i < t.length := by simpa using hi
        simpa [List.set] using getD_cons_set_perm x t i hi2
      | succ j =>
        have hi2 : i < t.length := by simpa using hi
        have := ih i j (by omega) hi2
        simpa [List.set] using this.cons x

/-- A list equals itself after rewriting one position with its own value. -/
theorem set_getD_self : ∀ (l : List Nat) (i : Nat), l.set i (l.getD i 0) = l := by
  intro l
  induction l with
  | nil => intro i; simp
  | cons x t ih =>
    intro i
    cases i with
    | zero => rfl
    | succ i =>
      show x :: t.set i (t.getD i 0) = x :: t
      rw [ih i]

/-- swapList always returns a permutation of its input. -/
theorem swapList_perm (l : List Nat) (i j : Nat) : (swapList l i j).Perm l := by
  unfold swapList
  split
  · rename_i h
    obtain ⟨hi, hj⟩ := h
    rcases Nat.lt_trichotomy j i with hji | hij | hij
    · exact set_set_perm l i j hji hi
    · subst hij
      rw [set_getD_self, set_getD_self]
    · rw [List.set_comm _ _ _ (by omega)]
      exact set_set_perm l j i hij hj
  · exact List.Perm.refl l

/-- Every state of the shuffle loop is a permutation of its input. -/
theorem shuffleGo_perm (salt : List Nat) :
    ∀ (i v p : Nat) (cur : List Nat), (shuffleGo salt i v p cur).Perm cur := by
  intro i
  induction i with
  | zero => intro v p cur; exact List.Perm.refl cur
  | succ i ih =>
    intro v p cur
    exact (ih _ _ _).trans (swapList_perm cur (i + 1) _)

/-- Elimination form: a successful shuffle returns a permutation of its input. -/
theorem hashids_shuffle_ok_perm {alphabet salt r : List Nat}
    (h : hashids_shuffle alphabet salt = .ok r) : r.Perm alphabet := by
  unfold hashids_shuffle at h
  split at h
  · exact absurd h (by simp)
  · split at h
    · exact absurd h (by simp)
    · cases h; exact shuffleGo_perm salt _ 0 0 alphabet

/-- A successful shuffle has a non-empty input. -/
theorem hashids_shuffle_ok_ne_nil {alphabet salt r : List Nat}
    (h : hashids_shuffle alphabet salt = .ok r) : alphabet ≠ [] := by
  unfold hashids_shuffle at h
  split at h
  · exact absurd h (by simp)
  · split at h
    · exact absurd h (by simp)
    · rename_i hlen
      intro hnil
      exact hlen (by simp [hnil])

/-! Structure of a successful derivation. -/

/-- Unfolding a successful `builderOk` run into its intermediate values. -/
theorem builderOk_ok_elim {salt : List Nat} {custom : Option (List Nat)}
    {minLen : Option Nat} {c : HashidCodec}
    (h : builderOk salt custom minLen = some (.ok c)) :
    ∃ A sseps seps2 alph2 salph,
      alphabetChoice custom = .ok A ∧
      hashids_shuffle (get_non_duplicated_string DEFAULT_SEPARATORS A).1 salt = .ok sseps ∧
      resizeSeps sseps (get_non_duplicated_string DEFAULT_SEPARATORS A).2 = some (seps2, alph2) ∧
      hashids_shuffle alph2 salt = .ok salph ∧
      extractGuards (get_non_duplicated_string DEFAULT_SEPARATORS A).2.length seps2 salph
        = some (c.guards, c.separators, c.alphabet) ∧
      c.salt = salt ∧ c.min_hash_length = minLen.getD DEFAULT_MIN_LENGTH := by
  unfold builderOk at h
  split at h
  · exact absurd h (by simp)
  · rename_i A hA
    split at h
    · dsimp only at h
      split at h
      · exact absurd h (by simp)
      · rename_i sseps hshuf
        split at h
        · exact absurd h (by simp)
        · rename_i seps2 alph2 hresize
          split at h
          · exact absurd h (by simp)
          · rename_i salph hshuf2
            split at h
            · exact absurd h (by simp)
            · rename_i guards seps3 alph3 hextract
              have hc : c = { salt := salt, alphabet := alph3, separators := seps3,
                              min_hash_length := minLen.getD DEFAULT_MIN_LENGTH,
                              guards := guards } := by
                have := Option.some.inj h
                exact (Except.ok.inj this).symm
              subst hc
              exact ⟨A, sseps, seps2, alph2, salph, hA, hshuf, hresize, hshuf2,
                hextract, rfl, rfl⟩
    · exact absurd h (by simp)

/-- The deduplication fold keeps an accumulator without duplicates. -/
theorem get_unique_go_nodup :
    ∀ (l acc : List Nat), acc.Nodup →
      (l.foldl (fun acc c => if acc.contains c then acc else acc ++ [c]) acc).Nodup := by
  intro l
  induction l with
  | nil => intro acc h; exact h
  | cons x t ih =>
    intro acc h
    simp only [List.foldl_cons]
    by_cases hx : acc.contains x
    · rw [if_pos hx]; exact ih acc h
    · rw [if_neg hx]
      refine ih _ ?_
      rw [List.nodup_append]
      refine ⟨h, List.nodup_singleton x, ?_⟩
      intro a ha hb
      rw [List.mem_singleton] at hb
      subst hb
      exact hx (List.elem_iff.mpr ha)

/-- get_unique_alphabet returns a duplicate-free list. -/
theorem get_unique_alphabet_nodup (l : List Nat) : (get_unique_alphabet l).Nodup :=
  get_unique_go_nodup l [] List.nodup_nil

/-- A successfully chosen alphabet is duplicate-free and has at least 16
characters. -/
theorem alphabetChoice_ok_props {custom : Option (List Nat)} {A : List Nat}
    (h : alphabetChoice custom = .ok A) :
    A.Nodup ∧ MIN_ALPHABET_LENGTH ≤ A.length := by
  cases custom with
  | none =>
    simp only [alphabetChoice] at h
    have : A = DEFAULT_ALPHABET := (Except.ok.inj h).symm
    subst this
    exact ⟨by decide, by decide⟩
  | some cu =>
    simp only [alphabetChoice] at h
    split at h
    · split at h
      · exact absurd h (by simp)
      · rename_i hlen
        have : A = get_unique_alphabet cu := (Except.ok.inj h).symm
        subst this
        exact ⟨get_unique_alphabet_nodup cu, by omega⟩
    · exact absurd h (by simp)

/-- The partition step returns duplicate-free, disjoint pools. -/
theorem partition_props {A : List Nat} (hA : A.Nodup) :
    (get_non_duplicated_string DEFAULT_SEPARATORS A).1.Nodup ∧
    (get_non_duplicated_string DEFAULT_SEPARATORS A).2.Nodup ∧
    (get_non_duplicated_string DEFAULT_SEPARATORS A).1.Disjoint
      (get_non_duplicated_string DEFAULT_SEPARATORS A).2 := by
  have hds : DEFAULT_SEPARATORS.Nodup := by decide
  refine ⟨List.Nodup.filter _ hds, List.Nodup.filter _ hA, ?_⟩
  intro a ha hb
  simp only [get_non_duplicated_string, List.mem_filter] at ha hb
  have h1 : DEFAULT_SEPARATORS.contains a = true := List.elem_iff.mpr ha.1
  have h2 : DEFAULT_SEPARATORS.contains a = false := by
    simpa using hb.2
  rw [h1] at h2
  exact absurd h2 (by decide)

/-- Case analysis of the separator-resize step. -/
theorem resizeSeps_elim {seps alph seps2 alph2 : List Nat}
    (h : resizeSeps seps alph = some (seps2, alph2)) :
    (¬(seps.length = 0 ∨ 4 ≤ alph.length / seps.length) ∧ seps2 = seps ∧ alph2 = alph) ∨
    ((seps.length = 0 ∨ 4 ≤ alph.length / seps.length) ∧
      ((seps.length < sepsTarget alph.length ∧
         sepsTarget alph.length - seps.length ≤ alph.length ∧
         seps2 = seps ++ alph.take (sepsTarget alph.length - seps.length) ∧
         alph2 = alph.drop (sepsTarget alph.length - seps.length)) ∨
       (sepsTarget alph.length ≤ seps.length ∧
         seps2 = seps.take (sepsTarget alph.length) ∧ alph2 = alph))) := by
  unfold resizeSeps at h
  split at h
  · rename_i hcond
    split at h
    · rename_i hlt
      split at h
      · rename_i hdiff
        have := Option.some.inj h
        right
        refine ⟨hcond, Or.inl ⟨hlt, hdiff, ?_, ?_⟩⟩
        · exact (congrArg Prod.fst this).symm
        · exact (congrArg Prod.snd this).symm
      · exact absurd h (by simp)
    · rename_i hge
      have := Option.some.inj h
      right
      refine ⟨hcond, Or.inr ⟨by omega, ?_, ?_⟩⟩
      · exact (congrArg Prod.fst this).symm
      · exact (congrArg Prod.snd this).symm
  · rename_i hcond
    have := Option.some.inj h
    exact Or.inl ⟨hcond, (congrArg Prod.fst this).symm, (congrArg Prod.snd this).symm⟩

/-- Case analysis of the guard-extraction step. -/
theorem extractGuards_elim {L : Nat} {seps alph g s2 a2 : List Nat}
    (h : extractGuards L seps alph = some (g, s2, a2)) :
    (L < 3 ∧ (L + 11) / 12 ≤ seps.length ∧ g = seps.take ((L + 11) / 12) ∧
      s2 = seps.drop ((L + 11) / 12) ∧ a2 = alph) ∨
    (3 ≤ L ∧ (L + 11) / 12 ≤ alph.length ∧ g = alph.take ((L + 11) / 12) ∧
      s2 = seps ∧ a2 = alph.drop ((L + 11) / 12)) := by
  unfold extractGuards at h
  dsimp only at h
  split at h
  · rename_i hL
    split at h
    · rename_i hb
      have := Option.some.inj h
      exact Or.inl ⟨hL, hb, (congrArg Prod.fst this).symm,
        (congrArg (fun p => p.2.1) this).symm, (congrArg (fun p => p.2.2) this).symm⟩
    · exact absurd h (by simp)
  · rename_i hL
    split at h
    · rename_i hb
      have := Option.some.inj h
      exact Or.inr ⟨by omega, hb, (congrArg Prod.fst this).symm,
        (congrArg (fun p => p.2.1) this).symm, (congrArg (fun p => p.2.2) this).symm⟩
    · exact absurd h (by simp)

/-- The separator-resize step preserves lack of duplicates and disjointness. -/
theorem resizeSeps_props {seps alph seps2 alph2 : List Nat}
    (h : resizeSeps seps alph = some (seps2, alph2))
    (hs : seps.Nodup) (ha : alph.Nodup) (hd : seps.Disjoint alph) :
    seps2.Nodup ∧ alph2.Nodup ∧ seps2.Disjoint alph2 := by
  rcases resizeSeps_elim h with ⟨_, h1, h2⟩ | ⟨_, hcase⟩
  · subst h1; subst h2; exact ⟨hs, ha, hd⟩
  · rcases hcase with ⟨_, _, h1, h2⟩ | ⟨_, h1, h2⟩
    · subst h1; subst h2
      refine ⟨?_, List.Nodup.sublist (List.drop_sublist _ _) ha, ?_⟩
      · rw [List.nodup_append]
        refine ⟨hs, List.Nodup.sublist (List.take_sublist _ _) ha, ?_⟩
        intro a h1 h2
        exact hd h1 (List.take_subset _ _ h2)
      · intro a hmem hdrop
        rcases List.mem_append.mp hmem with h1 | h1
        · exact hd h1 (List.drop_subset _ _ hdrop)
        · exact List.disjoint_take_drop ha (Nat.le_refl _) h1 hdrop
    · subst h1; subst h2
      refine ⟨List.Nodup.sublist (List.take_sublist _ _) hs, ha, ?_⟩
      intro a h1 h2
      exact hd (List.take_subset _ _ h1) h2

/-- A duplicate-free alphabet loses at most `DEFAULT_SEPARATORS.length = 14`
characters to the separator pool: the partitioned pools jointly cover it. -/
theorem partition_length_bound {A : List Nat} (hA : A.Nodup) :
    A.length ≤ (get_non_duplicated_string DEFAULT_SEPARATORS A).1.length +
      (get_non_duplicated_string DEFAULT_SEPARATORS A).2.length := by
  have hsplit := @List.length_eq_length_filter_add Nat A
    (fun c => DEFAULT_SEPARATORS.contains c)
  have hsub : A.filter (fun c => DEFAULT_SEPARATORS.contains c) ⊆
      DEFAULT_SEPARATORS.filter (fun c => A.contains c) := by
    intro a ha
    rw [List.mem_filter] at ha ⊢
    exact ⟨List.elem_iff.mp ha.2, List.elem_iff.mpr ha.1⟩
  have hnd : (A.filter (fun c => DEFAULT_SEPARATORS.contains c)).Nodup :=
    List.Nodup.filter _ hA
  have hle : (A.filter (fun c => DEFAULT_SEPARATORS.contains c)).length ≤
      (DEFAULT_SEPARATORS.filter (fun c => A.contains c)).length :=
    (List.subperm_of_subset hnd hsub).length_le
  have h2 : (A.filter (fun x => !(fun c => DEFAULT_SEPARATORS.contains c) x)).length
      = (get_non_duplicated_string DEFAULT_SEPARATORS A).2.length := rfl
  have h1 : (DEFAULT_SEPARATORS.filter (fun c => A.contains c)).length
      = (get_non_duplicated_string DEFAULT_SEPARATORS A).1.length := rfl
  rw [h2] at hsplit
  rw [h1] at hle
  omega

/-- Pool disjointness invariant (claim C9): every configuration returned by a
successful derivation has pairwise-disjoint alphabet, separator and guard
pools.  In this functional model the configuration is an immutable value, so
encode and decode cannot mutate it; the invariant holds for the life of the
codec. -/
theorem builderOk_pools_disjoint {salt : List Nat} {custom : Option (List Nat)}
    {minLen : Option Nat} {c : HashidCodec}
    (h : builderOk salt custom minLen = some (.ok c)) :
    c.alphabet.Disjoint c.separators ∧ c.alphabet.Disjoint c.guards ∧
      c.separators.Disjoint c.guards := by
  obtain ⟨A, sseps, seps2, alph2, salph, hA, hshuf, hresize, hshuf2, hextract, _, _⟩ :=
    builderOk_ok_elim h
  obtain ⟨hAnodup, hAlen⟩ := alphabetChoice_ok_props hA
  obtain ⟨hps, hpa, hpd⟩ := partition_props hAnodup
  have hperm1 := hashids_shuffle_ok_perm hshuf
  have hsseps_nodup : sseps.Nodup := (hperm1.nodup_iff).mpr hps
  have hsseps_disj : sseps.Disjoint (get_non_duplicated_string DEFAULT_SEPARATORS A).2 := by
    intro a ha hb
    exact hpd (hperm1.mem_iff.mp ha) hb
  obtain ⟨h2s, h2a, h2d⟩ := resizeSeps_props hresize hsseps_nodup hpa hsseps_disj
  have hperm2 := hashids_shuffle_ok_perm hshuf2
  have hsalph_nodup : salph.Nodup := (hperm2.nodup_iff).mpr h2a
  have hsd : seps2.Disjoint salph := by
    intro a ha hb
    exact h2d ha (hperm2.mem_iff.mp hb)
  rcases extractGuards_elim hextract with ⟨_, _, hg, hs2, ha2⟩ | ⟨_, _, hg, hs2, ha2⟩
  · rw [hg, hs2, ha2]
    refine ⟨?_, ?_, ?_⟩
    · intro a ha hb
      exact hsd (List.drop_subset _ _ hb) ha
    · intro a ha hb
      exact hsd (List.take_subset _ _ hb) ha
    · intro a ha hb
      exact List.disjoint_take_drop h2s (Nat.le_refl _) hb ha
  · rw [hg, hs2, ha2]
    refine ⟨?_, ?_, ?_⟩
    · intro a ha hb
      exact hsd hb (List.drop_subset _ _ ha)
    · intro a ha hb
      exact List.disjoint_take_drop hsalph_nodup (Nat.le_refl _) hb ha
    · intro a ha hb
      exact hsd ha (List.take_subset _ _ hb)

/-- Non-empty pools (claim C10): every configuration returned by a successful
derivation has a non-empty alphabet, non-empty separators and non-empty
guards.  Consequently the moduli `alphabet.len()`, `separators.len()` and
`guards.len()` taken inside encode are never zero, the one-character slices of
these pools are in bounds, and the shuffles invoked by encode never receive an
empty sequence. -/
theorem builderOk_pools_nonempty {salt : List Nat} {custom : Option (List Nat)}
    {minLen : Option Nat} {c : HashidCodec}
    (h : builderOk salt custom minLen = some (.ok c)) :
    c.alphabet ≠ [] ∧ c.separators ≠ [] ∧ c.guards ≠ [] := by
  obtain ⟨A, sseps, seps2, alph2, salph, hA, hshuf, hresize, hshuf2, hextract, _, _⟩ :=
    builderOk_ok_elim h
  obtain ⟨hAnodup, hAlen⟩ := alphabetChoice_ok_props hA
  set S0 := (get_non_duplicated_string DEFAULT_SEPARATORS A).1 with hS0
  set L0 := (get_non_duplicated_string DEFAULT_SEPARATORS A).2 with hL0
  have hcover : A.length ≤ S0.length + L0.length := partition_length_bound hAnodup
  have hS14 : S0.length ≤ DEFAULT_SEPARATORS.length := List.length_filter_le _ _
  have hLA : L0.length ≤ A.length := List.length_filter_le _ _
  have hMIN : MIN_ALPHABET_LENGTH = 16 := rfl
  have hDS14 : DEFAULT_SEPARATORS.length = 14 := rfl
  have hL2 : 2 ≤ L0.length := by omega
  have hsseps_len : sseps.length = S0.length := (hashids_shuffle_ok_perm hshuf).length_eq
  have hsseps_pos : 0 < sseps.length := by
    have := hashids_shuffle_ok_ne_nil hshuf
    have : 0 < S0.length := List.length_pos.mpr this
    omega
  have hsalph_len : salph.length = alph2.length := (hashids_shuffle_ok_perm hshuf2).length_eq
  have halph2_pos : alph2 ≠ [] := hashids_shuffle_ok_ne_nil hshuf2
  -- lengths of the resized pools
  have hresize_facts :
      (seps2.length = sseps.length ∧ alph2.length = L0.length) ∨
      (0 < sseps.length ∧ 4 * sseps.length ≤ L0.length ∧
        ((sseps.length < sepsTarget L0.length ∧
           seps2.length = sepsTarget L0.length ∧
           alph2.length = L0.length - (sepsTarget L0.length - sseps.length)) ∨
         (sepsTarget L0.length ≤ sseps.length ∧
           seps2.length = sepsTarget L0.length ∧ alph2.length = L0.length))) := by
    rcases resizeSeps_elim hresize with ⟨_, h1, h2⟩ | ⟨hcond, hcase⟩
    · left; rw [h1, h2]; exact ⟨rfl, rfl⟩
    · right
      have hdiv : 4 ≤ L0.length / sseps.length := by
        rcases hcond with h0 | h0
        · omega
        · exact h0
      have hmul : 4 * sseps.length ≤ L0.length := by
        have := (Nat.le_div_iff_mul_le hsseps_pos).mp hdiv
        omega
      refine ⟨hsseps_pos, hmul, ?_⟩
      rcases hcase with ⟨hlt, hdiff, h1, h2⟩ | ⟨hge, h1, h2⟩
      · left
        refine ⟨hlt, ?_, ?_⟩
        · rw [h1]
          rw [List.length_append, List.length_take]
          omega
        · rw [h2, List.length_drop]
      · right
        refine ⟨hge, ?_, ?_⟩
        · rw [h1, List.length_take]
          omega
        · rw [h2]
  -- the separator target is at least 2 whenever the resize fires
  have htarget : ∀ m : Nat, 4 ≤ m → 2 ≤ sepsTarget m := by
    intro m hm
    unfold sepsTarget
    split
    · omega
    · omega
  rcases extractGuards_elim hextract with ⟨hLlt, hbound, hg, hs2, ha2⟩ |
      ⟨hLge, hbound, hg, hs2, ha2⟩
  · -- L0.length < 3, i.e. exactly 2: guards carved from the separators
    have hL : L0.length = 2 := by omega
    have hseps2_len : seps2.length = sseps.length ∧ alph2.length = L0.length := by
      rcases hresize_facts with hid | ⟨_, hmul, _⟩
      · exact hid
      · omega
    have hk : (L0.length + 11) / 12 = 1 := by omega
    refine ⟨?_, ?_, ?_⟩
    · rw [ha2]
      have h1 : 0 < alph2.length := List.length_pos.mpr halph2_pos
      have h2 : 0 < salph.length := by omega
      exact List.length_pos.mp h2
    · rw [hs2]
      have : (seps2.drop ((L0.length + 11) / 12)).length = seps2.length - 1 := by
        rw [List.length_drop, hk]
      intro hnil
      rw [hnil] at this
      simp only [List.length_nil] at this
      omega
    · rw [hg]
      intro hnil
      have := congrArg List.length hnil
      rw [List.length_take, hk] at this
      simp only [List.length_nil] at this
      omega
  · -- 3 ≤ L0.length: guards carved from the shuffled alphabet
    have hk1 : 1 ≤ (L0.length + 11) / 12 := by omega
    have halph2_lb : (L0.length + 11) / 12 < alph2.length := by
      rcases hresize_facts with ⟨_, hlen⟩ | ⟨_, hmul, hcase⟩
      · omega
      · have ht2 : 2 ≤ sepsTarget L0.length := htarget _ (by omega)
        have htub : sepsTarget L0.length ≤ 2 * L0.length / 7 + 1 := by
          unfold sepsTarget
          split
          · omega
          · omega
        rcases hcase with ⟨_, _, hlen⟩ | ⟨_, _, hlen⟩
        · omega
        · omega
    refine ⟨?_, ?_, ?_⟩
    · rw [ha2]
      intro hnil
      have := congrArg List.length hnil
      rw [List.length_drop] at this
      simp only [List.length_nil] at this
      omega
    · rw [hs2]
      intro hnil
      have hslen : seps2.length = 0 := by rw [hnil]; rfl
      rcases hresize_facts with ⟨hlen, _⟩ | ⟨_, hmul, hcase⟩
      · omega
      · have ht2 : 2 ≤ sepsTarget L0.length := htarget _ (by omega)
        rcases hcase with ⟨_, hlen, _⟩ | ⟨_, hlen, _⟩ <;> omega
    · rw [hg]
      intro hnil
      have := congrArg List.length hnil
      rw [List.length_take] at this
      simp only [List.length_nil] at this
      omega

/-- Separator resizing rule as implemented (amended claim C7): for a non-empty
separator pool (the only reachable case — an empty pool already fails the
preceding shuffle), the pool is resized exactly when the INTEGER quotient
`alphabet_length / separators_length` is at least 4 (the code casts the integer
quotient to f32 before comparing with 3.5), the target count is
`floor(alphabet_length / 3.5)` floored to a minimum of 2, and the resize moves
characters from the front of the alphabet or truncates the separators as the
spec describes; no panic is possible here. -/
theorem resizeSeps_rule (seps alph : List Nat) (hne : seps ≠ []) :
    resizeSeps seps alph =
      (if 4 ≤ alph.length / seps.length then
        (if seps.length < max 2 (2 * alph.length / 7) then
          some (seps ++ alph.take (max 2 (2 * alph.length / 7) - seps.length),
                alph.drop (max 2 (2 * alph.length / 7) - seps.length))
        else some (seps.take (max 2 (2 * alph.length / 7)), alph))
      else some (seps, alph)) := by
  have hS : 0 < seps.length := List.length_pos.mpr hne
  by_cases hc : 4 ≤ alph.length / seps.length
  · have hL : 4 * seps.length ≤ alph.length := by
      have := (Nat.le_div_iff_mul_le hS).mp hc
      omega
    have hL4 : 4 ≤ alph.length := by omega
    have ht : sepsTarget alph.length = max 2 (2 * alph.length / 7) := by
      unfold sepsTarget
      split
      · omega
      · omega
    have hcond : seps.length = 0 ∨ 4 ≤ alph.length / seps.length := Or.inr hc
    rw [resizeSeps, if_pos hcond, ht, if_pos hc]
    have hdiff : max 2 (2 * alph.length / 7) - seps.length ≤ alph.length := by omega
    by_cases hlt : seps.length < max 2 (2 * alph.length / 7)
    · rw [if_pos hlt, if_pos hdiff, if_pos hlt]
    · rw [if_neg hlt, if_neg hlt]
  · have hcond : ¬(seps.length = 0 ∨ 4 ≤ alph.length / seps.length) := by
      intro hor
      rcases hor with h0 | h0
      · omega
      · exact hc h0
    rw [resizeSeps, if_neg hcond, if_neg hc]

/-- Guard extraction rule as implemented (amended claim C8): in every
successful derivation the guard count is `ceil(L / 12)` where `L` is the
alphabet length BEFORE the separator-resize step (the same length the code
captured for the resize ratio test), and the guards are carved from the front
of the (shuffled, resized) separators when `L < 3` and from the front of the
shuffled alphabet otherwise, the donor pool keeping the remainder. -/
theorem builderOk_guard_rule {salt A : List Nat} {custom : Option (List Nat)}
    {minLen : Option Nat} {c : HashidCodec}
    (hA : alphabetChoice custom = .ok A)
    (h : builderOk salt custom minLen = some (.ok c)) :
    c.guards.length =
      ((get_non_duplicated_string DEFAULT_SEPARATORS A).2.length + 11) / 12 ∧
    ∃ sseps seps2 alph2 salph,
      hashids_shuffle (get_non_duplicated_string DEFAULT_SEPARATORS A).1 salt = .ok sseps ∧
      resizeSeps sseps (get_non_duplicated_string DEFAULT_SEPARATORS A).2
        = some (seps2, alph2) ∧
      hashids_shuffle alph2 salt = .ok salph ∧
      (let L := (get_non_duplicated_string DEFAULT_SEPARATORS A).2.length
       if L < 3 then
         c.guards = seps2.take ((L + 11) / 12) ∧
         c.separators = seps2.drop ((L + 11) / 12) ∧ c.alphabet = salph
       else
         c.guards = salph.take ((L + 11) / 12) ∧
         c.separators = seps2 ∧ c.alphabet = salph.drop ((L + 11) / 12)) := by
  obtain ⟨A2, sseps, seps2, alph2, salph, hA2, hshuf, hresize, hshuf2, hextract, _, _⟩ :=
    builderOk_ok_elim h
  have hAeq : A = A2 := by
    rw [hA] at hA2
    exact Except.ok.inj hA2
  subst hAeq
  rcases extractGuards_elim hextract with ⟨hLlt, hbound, hg, hs2, ha2⟩ |
      ⟨hLge, hbound, hg, hs2, ha2⟩
  · constructor
    · rw [hg, List.length_take]
      omega
    · exact ⟨sseps, seps2, alph2, salph, hshuf, hresize, hshuf2, by
        rw [if_pos hLlt]
        exact ⟨hg, hs2, ha2⟩⟩
  · constructor
    · rw [hg, List.length_take]
      omega
    · exact ⟨sseps, seps2, alph2, salph, hshuf, hresize, hshuf2, by
        rw [if_neg (by omega : ¬(get_non_duplicated_string DEFAULT_SEPARATORS A).2.length < 3)]
        exact ⟨hg, hs2, ha2⟩⟩

/-- Decode verification (amended claim C2, first half): whenever decode
returns a recovered sequence, re-encoding that sequence with the same codec
reproduces the input byte-for-byte; whenever decode reaches the comparison and
the re-encoding differs, the result is the InvalidHash error.  Decoding under
aDIFFERENT salt is NOT guaranteed to fail: two distinct salts can induce the
same behaviour (see the counterexample), so the original universal
different-salt statement is false. -/
theorem decode_verifies {c : HashidCodec} {hashInput ns : List Nat}
    (h : decode c hashInput = some (.ok ns)) :
    encode_vec c ns = some hashInput := by
  unfold decode at h
  split at h
  · exact absurd h (by simp)
  · dsimp only at h
    split at h
    · exact absurd h (by simp)
    · rename_i seg hseg
      split at h
      · exact absurd h (by simp)
      · rename_i lottery restSeg
        split at h
        · exact absurd h (by simp)
        · rename_i ret hret
          split at h
          · exact absurd h (by simp)
          · rename_i chk hchk
            split at h
            · rename_i heq
              have hns : ret = ns := Except.ok.inj (Option.some.inj h)
              rw [← hns, hchk, heq]
            · exact absurd h (by simp)

/-! Claim theorems, counterexamples and witnesses. -/

set_option maxRecDepth 100000

/-- The codec derived from the salt "this is my salt" with default alphabet and
default minimum length (the configuration used throughout the crate's tests);
see `codecTIMS_derivation`. -/
def codecTIMS : HashidCodec where
  salt := saltTIMS
  alphabet := [53, 78, 54, 121, 50, 114, 108, 106, 68, 81, 97, 107, 52, 120,
               103, 122, 110, 56, 90, 82, 49, 111, 75, 89, 76, 109, 74, 112,
               69, 98, 86, 113, 51, 79, 66, 118, 57, 87, 119, 88, 80, 77, 101, 55]
  separators := [85, 72, 117, 104, 116, 99, 73, 84, 67, 115, 70, 105, 102, 83]
  min_hash_length := 4
  guards := [65, 100, 71, 48]

/-- Sanity: the default derivation for "this is my salt" yields `codecTIMS`. -/
theorem codecTIMS_derivation : builderOk saltTIMS none none = some (.ok codecTIMS) := by
  rfl

/-- Sanity: the embedding reproduces the crate's own test vector
`encode(12345) = "NkK9"` ("NkK9" = bytes [78, 107, 75, 57]). -/
theorem encode_test_vector : encode_vec codecTIMS [12345] = some [78, 107, 75, 57] := by
  rfl

/-- Sanity: the embedding reproduces the crate's test vector
`encode(1) = "gB0NV05e"` for minimum length 8. -/
theorem encode_test_vector_min8 :
    encodeWith saltTIMS none (some 8) [1] = some [103, 66, 48, 78, 86, 48, 53, 101] := by
  rfl

/-- C6: hashids_shuffle, given a non-empty sequence and a non-empty salt,
returns a rearrangement of its input — the same multiset of characters
(`List.Perm`) and the same length, with no characters added or removed; being
a pure function of (sequence, salt), its result is fully determined by them. -/
theorem hashids_shuffle_is_permutation (seq salt : List Nat)
    (h1 : seq ≠ []) (h2 : salt ≠ []) :
    ∃ r, hashids_shuffle seq salt = .ok r ∧ r.Perm seq ∧ r.length = seq.length := by
  have hs : ¬ salt.length = 0 := by
    intro h0
    exact h2 (List.length_eq_zero.mp h0)
  have ha : ¬ seq.length = 0 := by
    intro h0
    exact h1 (List.length_eq_zero.mp h0)
  unfold hashids_shuffle
  rw [if_neg hs, if_neg ha]
  exact ⟨_, rfl, shuffleGo_perm salt _ 0 0 seq,
    (shuffleGo_perm salt _ 0 0 seq).length_eq⟩

/-- Witness for C6 at the concrete sequence "abc" and salt "x". -/
theorem hashids_shuffle_is_permutation_witness :
    ∃ r, hashids_shuffle [97, 98, 99] [120] = .ok r ∧ r.Perm [97, 98, 99] ∧
      r.length = [97, 98, 99].length :=
  hashids_shuffle_is_permutation [97, 98, 99] [120] (by decide) (by decide)

/-- Witness for C9 at the concrete default codec for "this is my salt". -/
theorem builderOk_pools_disjoint_witness :
    codecTIMS.alphabet.Disjoint codecTIMS.separators ∧
    codecTIMS.alphabet.Disjoint codecTIMS.guards ∧
    codecTIMS.separators.Disjoint codecTIMS.guards :=
  @builderOk_pools_disjoint saltTIMS none none codecTIMS (by rfl)

/-- Witness for C10 at the concrete default codec for "this is my salt". -/
theorem builderOk_pools_nonempty_witness :
    codecTIMS.alphabet ≠ [] ∧ codecTIMS.separators ≠ [] ∧ codecTIMS.guards ≠ [] :=
  @builderOk_pools_nonempty saltTIMS none none codecTIMS (by rfl)

/-- Witness for the amended C2: decode of "NkK9" under `codecTIMS` succeeds
with [12345], so by `decode_verifies` re-encoding reproduces the input. -/
theorem decode_verifies_witness :
    encode_vec codecTIMS [12345] = some [78, 107, 75, 57] :=
  @decode_verifies codecTIMS [78, 107, 75, 57] [12345] (by rfl)

/-- Counterexample for C2 as stated: two DIFFERENT salts (47 times the letter
a, and the same extended by the letter b) produce codecs that agree on every
byte the algorithm ever reads (every shuffle reads salt positions 0–46 at
most, and the encode/decode re-shuffle seed is truncated to the 44-character
working alphabet), so decoding a hash produced under the first salt with the
codec of the second salt returns `Ok [1]` — a numeric result, not the
InvalidHash error the claim promises for every different-salt decode. -/
theorem decode_different_salt_succeeds :
    saltLongA ≠ saltLongB ∧
    encodeWith saltLongA none none [1] = some [110, 121, 81, 110] ∧
    decodeWith saltLongB none none [110, 121, 81, 110] = some (.ok [1]) := by
  refine ⟨by decide, by rfl, by rfl⟩

/-- C1 (code bug): with the legal custom alphabet "0123456789ABCDEF " (which
contains the space character) under salt "this is my salt", encode(14)
succeeds and returns "AEB " (bytes [65, 69, 66, 32]), but decoding that very
string fails with InvalidHash instead of returning [14]: decode splits the
hash on whitespace, so the space DIGIT produced by encode is eaten by the
splitter and the recovered number re-encodes differently.  Round-trip
decode(encode(n)) = n therefore fails for this configuration. -/
theorem roundtrip_fails_space_alphabet :
    encodeWith saltTIMS (some alphaSpace) none [14] = some [65, 69, 66, 32] ∧
    decodeWith saltTIMS (some alphaSpace) none [65, 69, 66, 32]
      = some (.error .InvalidHash) := by
  refine ⟨by rfl, by rfl⟩

/-- C3 (code bug): decoding the one-character string "A" — a guard character
of the default "this is my salt" configuration — panics instead of returning
an error: every character of the input is a guard, so after guard-stripping
and whitespace-splitting there is no segment left and `split1[i]` at lib.rs
410 indexes an empty vector (modelled by `none`). -/
theorem decode_guard_string_panics :
    configGuards (builderOk saltTIMS none none) = [65, 100, 71, 48] ∧
    decodeWith saltTIMS none none [65] = none := by
  refine ⟨by rfl, by rfl⟩

/-- C4 (code bug): the PositiveInteger boundary does not implement the
documented range [0, 2^53].  For i64 the code rejects 0 (`self <= 0`, lib.rs
476) although the claim accepts every non-negative value including 0, and for
u64 the code accepts every value below `i64::MAX = 2^63 - 1` (lib.rs 458),
e.g. `2^60`, although the claim rejects everything above
`2^53 = 9007199254740992`. -/
theorem to_usize_range_gate_bug :
    i64_to_usize 0 = .error .InvalidInputId ∧
    u64_to_usize (2 ^ 60) = .ok (2 ^ 60) ∧
    9007199254740992 < 2 ^ 60 := by
  refine ⟨by rfl, by rfl, by decide⟩

/-- C5 (code bug): with the default alphabet, salt "this is my salt" and
min_hash_length = 100, encode(1) panics instead of returning a string of
length at least 100: the padding loop wraps the short output in one 44-character
alphabet, the result (48 bytes) is still shorter than 100, and the usize
subtraction `ret_str.len() - self.min_hash_length` (lib.rs 384) wraps, making
the following slice out of bounds (modelled by `none`). -/
theorem encode_min_length_100_panics :
    (configAlphabet (builderOk saltTIMS none (some 100))).length = 44 ∧
    encodeWith saltTIMS none (some 100) [1] = none := by
  refine ⟨by rfl, by rfl⟩

/-- Counterexample for C7 as stated: for the 67-character alphabet `alpha67`
the partition yields 14 separators and 53 alphabet characters, whose real
ratio 53/14 exceeds 3.5 (7 * 14 < 2 * 53), so the claim mandates a resize to
`floor(53 / 3.5) = 15` separators; the code computes the INTEGER quotient
53 / 14 = 3, compares it with 3.5, and does not resize, leaving 14
separators.  `builderOkClaimC7` is the derivation with the claim's version of
the resize test. -/
theorem resize_ratio_counterexample :
    (get_non_duplicated_string DEFAULT_SEPARATORS (get_unique_alphabet alpha67)).1.length
      = 14 ∧
    (get_non_duplicated_string DEFAULT_SEPARATORS (get_unique_alphabet alpha67)).2.length
      = 53 ∧
    7 * 14 < 2 * 53 ∧
    (configSeparators (builderOk saltTIMS (some alpha67) none)).length = 14 ∧
    (configSeparators (builderOkClaimC7 saltTIMS (some alpha67) none)).length = 15 := by
  refine ⟨by rfl, by rfl, by decide, by rfl, by rfl⟩

/-- Witness for the amended C7 rule at a concrete separator pool of 2 and an
alphabet of 8 characters (integer quotient 4 triggers the resize). -/
theorem resizeSeps_rule_witness :
    resizeSeps [99, 102] [48, 49, 50, 51, 52, 53, 54, 55] =
      (if 4 ≤ [48, 49, 50, 51, 52, 53, 54, 55].length / [99, 102].length then
        (if [99, 102].length <
            max 2 (2 * [48, 49, 50, 51, 52, 53, 54, 55].length / 7) then
          some ([99, 102] ++ [48, 49, 50, 51, 52, 53, 54, 55].take
                  (max 2 (2 * [48, 49, 50, 51, 52, 53, 54, 55].length / 7) -
                    [99, 102].length),
                [48, 49, 50, 51, 52, 53, 54, 55].drop
                  (max 2 (2 * [48, 49, 50, 51, 52, 53, 54, 55].length / 7) -
                    [99, 102].length))
        else some ([99, 102].take
                     (max 2 (2 * [48, 49, 50, 51, 52, 53, 54, 55].length / 7)),
                   [48, 49, 50, 51, 52, 53, 54, 55]))
      else some ([99, 102], [48, 49, 50, 51, 52, 53, 54, 55])) :=
  resizeSeps_rule [99, 102] [48, 49, 50, 51, 52, 53, 54, 55] (by decide)

/-- Counterexample for C8 as stated: for the 78-character alphabet `alpha78`
the pre-resize alphabet length is 64 and the post-resize length is 60; the
code extracts `ceil(64 / 12) = 6` guards (pre-resize length), while the
claim's reading — the length AFTER the separator-resize step — gives
`ceil(60 / 12) = 5`.  `builderOkClaimC8` is the derivation with the claim's
version of the guard count. -/
theorem guard_length_counterexample :
    (get_non_duplicated_string DEFAULT_SEPARATORS (get_unique_alphabet alpha78)).2.length
      = 64 ∧
    (configAlphabet (builderOk saltTIMS (some alpha78) none)).length +
      (configGuards (builderOk saltTIMS (some alpha78) none)).length = 60 ∧
    (configGuards (builderOk saltTIMS (some alpha78) none)).length = 6 ∧
    (configGuards (builderOkClaimC8 saltTIMS (some alpha78) none)).length = 5 := by
  refine ⟨by rfl, by rfl, by rfl, by rfl⟩

/-- Witness for the amended C8 rule at the default derivation for
"this is my salt": the pre-resize alphabet length is 48, so 4 guards. -/
theorem builderOk_guard_rule_witness :
    codecTIMS.guards.length
      = ((get_non_duplicated_string DEFAULT_SEPARATORS DEFAULT_ALPHABET).2.length + 11)
        / 12 :=
  (@builderOk_guard_rule saltTIMS DEFAULT_ALPHABET none none codecTIMS (by rfl) (by rfl)).1

end Hashids
